import Mathlib

/-!
Verification of the statistical-evaluation logic of the sepsis3-mimic
repository (notebook `src/appendix/sepsis-3-angus-on-time.ipynb`).

The notebook embeds the cohort table as a list of records, the Sepsis-3
rule evaluator (`yhat`, `yhat_all`), and calls into metric routines
(`accuracy_score`, `print_cm` / `confusion_matrix`, `roc_curve`, `auc`,
`print_op_stats`) whose implementations live outside the notebook; those
are modelled from the specification (section 4.2 / 4.3) and each such
definition is marked `Modelled from the spec:`.

Rates are represented as rationals (`ℚ`), severity scores as naturals.
-/

namespace Sepsis3

/-- One cohort record: one row per (patient, ICU stay) with the severity
scores (non-negative integers), the boolean sepsis3 composite column and
the Angus outcome column, as loaded by `su.get_data` in the notebook. -/
structure Record where
  qsofa : ℕ
  sofa : ℕ
  sirs : ℕ
  lods : ℕ
  sepsis3 : Bool
  angus : ℕ
deriving Repr, DecidableEq, Inhabited

/-- Notebook: `y = df[target_header].values == 1` with `target_header = "angus"`. -/
def y (df : List Record) : List Bool :=
  df.map (fun r => r.angus == 1)

/-- Notebook: `yhat = (df.qsofa.values >= 2) & (df.sofa.values>=2)`. -/
def yhat (df : List Record) : List Bool :=
  df.map (fun r => decide (2 ≤ r.qsofa) && decide (2 ≤ r.sofa))

/-- Notebook: `yhat_all = [df.qsofa.values >= 2, df.sofa.values >= 2,
df.sepsis3.values, df.sirs.values >= 2, df.lods.values >= 2]`. -/
def yhat_all (df : List Record) : List (List Bool) :=
  [ df.map (fun r => decide (2 ≤ r.qsofa)),
    df.map (fun r => decide (2 ≤ r.sofa)),
    df.map (fun r => r.sepsis3),
    df.map (fun r => decide (2 ≤ r.sirs)),
    df.map (fun r => decide (2 ≤ r.lods)) ]

/-- Notebook: `y_all = [y, y, y, y, y]`. -/
def y_all (df : List Record) : List (List Bool) :=
  [y df, y df, y df, y df, y df]

/-- Count of true positives over a zipped (truth, prediction) list:
tp = count(y_true=1 ∧ y_pred=1). -/
def tpCount (yt yp : List Bool) : ℕ :=
  ((yt.zip yp).filter (fun p => p.1 && p.2)).length

/-- fp = count(y_true=0 ∧ y_pred=1). -/
def fpCount (yt yp : List Bool) : ℕ :=
  ((yt.zip yp).filter (fun p => !p.1 && p.2)).length

/-- fn = count(y_true=1 ∧ y_pred=0). -/
def fnCount (yt yp : List Bool) : ℕ :=
  ((yt.zip yp).filter (fun p => p.1 && !p.2)).length

/-- tn = count(y_true=0 ∧ y_pred=0). -/
def tnCount (yt yp : List Bool) : ℕ :=
  ((yt.zip yp).filter (fun p => !p.1 && !p.2)).length

/-- Modelled from the spec: `confusion_matrix(y_true, y_pred) -> (tp, fp, fn, tn)`
(the counting core of `su.print_cm`, whose implementation is not under src/).
Per section 4.2 it must fail with a size-mismatch error if the vectors differ
in length or are empty. -/
def confusion_matrix (yt yp : List Bool) : Except String (ℕ × ℕ × ℕ × ℕ) :=
  if yt.length ≠ yp.length then Except.error "size mismatch"
  else if yt.length = 0 then Except.error "empty input"
  else Except.ok (tpCount yt yp, fpCount yt yp, fnCount yt yp, tnCount yt yp)

/-- Modelled from the spec: `accuracy(y_true, y_pred) -> float` with
accuracy = (tp+tn)/n (the core of `metrics.accuracy_score`, not under src/).
Fails with a size-mismatch error if vectors differ in length or are empty. -/
def accuracy_score (yt yp : List Bool) : Except String ℚ :=
  if yt.length ≠ yp.length then Except.error "size mismatch"
  else if yt.length = 0 then Except.error "empty input"
  else Except.ok ((tpCount yt yp + tnCount yt yp : ℚ) / yt.length)

/-- Modelled from the spec: multi-rule reporting (`su.print_op_stats`, not
under src/) computes the confusion tuple independently per rule against the
same ground truth, in the caller-specified rule order. -/
def print_op_stats (yhats ys : List (List Bool)) : List (Except String (ℕ × ℕ × ℕ × ℕ)) :=
  (ys.zip yhats).map (fun p => confusion_matrix p.1 p.2)

/-- Number of positive examples in a truth vector. -/
def posCount (yt : List Bool) : ℕ := (yt.filter (fun b => b)).length

/-- Number of negative examples in a truth vector. -/
def negCount (yt : List Bool) : ℕ := (yt.filter (fun b => !b)).length

/-- Insert a value into a strictly descending list, dropping it when it is
already present (so ties in score contribute a single threshold). -/
def insertDesc (x : ℚ) : List ℚ → List ℚ
  | [] => [x]
  | z :: zs => if z < x then x :: z :: zs else if x = z then z :: zs else z :: insertDesc x zs

/-- The distinct score values sorted descending: the threshold sequence of
the stepwise ROC construction. -/
def sortedDistinctDesc (s : List ℚ) : List ℚ := s.foldr insertDesc []

/-- True positives at threshold `t`: records with `y_true = 1` and score ≥ t. -/
def tpAt (yt : List Bool) (s : List ℚ) (t : ℚ) : ℕ :=
  ((yt.zip s).filter (fun p => p.1 && decide (t ≤ p.2))).length

/-- False positives at threshold `t`: records with `y_true = 0` and score ≥ t. -/
def fpAt (yt : List Bool) (s : List ℚ) (t : ℚ) : ℕ :=
  ((yt.zip s).filter (fun p => !p.1 && decide (t ≤ p.2))).length

/-- The (fpr, tpr) pair at threshold `t`. -/
def rocPoint (yt : List Bool) (s : List ℚ) (t : ℚ) : ℚ × ℚ :=
  ((fpAt yt s t : ℚ) / negCount yt, (tpAt yt s t : ℚ) / posCount yt)

/-- Modelled from the spec: the point sequence of `roc_curve` (section 4.3;
the implementation behind `metrics.roc_curve` is not under src/): one point
per distinct threshold, thresholds sorted descending, with (0,0) prepended
and (1,1) appended. -/
def rocPoints (yt : List Bool) (s : List ℚ) : List (ℚ × ℚ) :=
  ((0, 0) :: (sortedDistinctDesc s).map (rocPoint yt s)) ++ [(1, 1)]

/-- Modelled from the spec: `roc_curve(y_true, scores)` (section 4.3). Fails
fast on length mismatch and fails explicitly when the truth vector has no
positive or no negative examples. -/
def roc_curve (yt : List Bool) (s : List ℚ) : Except String (List (ℚ × ℚ)) :=
  if yt.length ≠ s.length then Except.error "size mismatch"
  else if posCount yt = 0 then Except.error "no positive examples"
  else if negCount yt = 0 then Except.error "no negative examples"
  else Except.ok (rocPoints yt s)

/-- Modelled from the spec: `auc(curve)` is the sum of trapezoid areas between
consecutive curve points (section 4.3; implementation behind `metrics.auc`
is not under src/). -/
def auc (c : List (ℚ × ℚ)) : ℚ :=
  ((c.zip c.tail).map (fun pq => (pq.2.1 - pq.1.1) * (pq.1.2 + pq.2.2) / 2)).sum

/-- Modelled from the spec: the AUROC of a score vector, `auc` composed with
`roc_curve`, propagating its errors. -/
def rocAuc (yt : List Bool) (s : List ℚ) : Except String ℚ :=
  (roc_curve yt s).map auc

/-- Notebook: `df.qsofa.values` as passed to `metrics.roc_curve`. -/
def qsofaScores (df : List Record) : List ℚ := df.map (fun r => (r.qsofa : ℚ))

/-- Notebook: `df.sofa.values` as passed to `metrics.roc_curve`. -/
def sofaScores (df : List Record) : List ℚ := df.map (fun r => (r.sofa : ℚ))

/-- Notebook: `df.sirs.values` as passed to `metrics.roc_curve`. -/
def sirsScores (df : List Record) : List ℚ := df.map (fun r => (r.sirs : ℚ))

/-- Notebook: `df.lods.values` as passed to `metrics.roc_curve`. -/
def lodsScores (df : List Record) : List ℚ := df.map (fun r => (r.lods : ℚ))

/-- A small concrete cohort used to instantiate the general theorems. -/
def dfSample : List Record :=
  [⟨2, 2, 2, 2, true, 1⟩, ⟨0, 1, 0, 0, false, 0⟩]

/-- The four confusion counts over a single zipped list, used to show they
partition the records. -/
theorem counts_partition (l : List (Bool × Bool)) :
    (l.filter (fun p => p.1 && p.2)).length
      + (l.filter (fun p => !p.1 && p.2)).length
      + (l.filter (fun p => p.1 && !p.2)).length
      + (l.filter (fun p => !p.1 && !p.2)).length = l.length := by
  induction l with
  | nil => rfl
  | cons a l ih =>
    obtain ⟨b, c⟩ := a
    cases b <;> cases c <;> simp [List.filter_cons] <;> omega

/-- The four confusion counts partition the cohort when the vectors have
equal length. -/
theorem counts_sum (yt yp : List Bool) (h : yt.length = yp.length) :
    tpCount yt yp + fpCount yt yp + fnCount yt yp + tnCount yt yp = yt.length := by
  unfold tpCount fpCount fnCount tnCount
  rw [counts_partition (yt.zip yp), List.length_zip, h, min_self]

theorem mem_insertDesc (x a : ℚ) : ∀ l : List ℚ, a ∈ insertDesc x l ↔ a = x ∨ a ∈ l := by
  intro l
  induction l with
  | nil => simp [insertDesc]
  | cons z zs ih =>
    by_cases h1 : z < x
    · simp [insertDesc, h1]
    · by_cases h2 : x = z
      · subst h2
        simp [insertDesc, h1]
      · simp [insertDesc, h1, h2, ih]
        tauto

theorem pairwise_insertDesc (x : ℚ) :
    ∀ l : List ℚ, l.Pairwise (· > ·) → (insertDesc x l).Pairwise (· > ·) := by
  intro l
  induction l with
  | nil => intro _; simp [insertDesc]
  | cons z zs ih =>
    intro hp
    rw [List.pairwise_cons] at hp
    by_cases h1 : z < x
    · simp only [insertDesc, if_pos h1]
      refine List.Pairwise.cons ?_ (List.Pairwise.cons hp.1 hp.2)
      intro b hb
      rcases List.mem_cons.mp hb with hb | hb
      · exact hb ▸ h1
      · exact lt_trans (hp.1 b hb) h1
    · by_cases h2 : x = z
      · simpa [insertDesc, h1, h2] using List.Pairwise.cons hp.1 hp.2
      · have hxz : x < z := lt_of_le_of_ne (not_lt.mp h1) h2
        simp only [insertDesc, if_neg h1, if_neg h2]
        refine List.Pairwise.cons ?_ (ih hp.2)
        intro b hb
        rcases (mem_insertDesc x b zs).mp hb with hb | hb
        · exact hb ▸ hxz
        · exact hp.1 b hb

theorem pairwise_sortedDistinctDesc (s : List ℚ) :
    (sortedDistinctDesc s).Pairwise (· > ·) := by
  induction s with
  | nil => simp [sortedDistinctDesc]
  | cons a s ih => exact pairwise_insertDesc a _ ih

theorem mem_sortedDistinctDesc (a : ℚ) (s : List ℚ) :
    a ∈ sortedDistinctDesc s ↔ a ∈ s := by
  induction s with
  | nil => simp [sortedDistinctDesc]
  | cons b s ih =>
    show a ∈ insertDesc b (sortedDistinctDesc s) ↔ _
    rw [mem_insertDesc, ih]
    simp

theorem nodup_sortedDistinctDesc (s : List ℚ) : (sortedDistinctDesc s).Nodup :=
  (pairwise_sortedDistinctDesc s).imp ne_of_gt

theorem fpAt_anti (yt : List Bool) (s : List ℚ) {t t' : ℚ} (h : t' ≤ t) :
    fpAt yt s t ≤ fpAt yt s t' := by
  refine List.Sublist.length_le (List.monotone_filter_right _ ?_)
  intro p hp
  simp only [Bool.and_eq_true, decide_eq_true_eq] at hp ⊢
  exact ⟨hp.1, le_trans h hp.2⟩

theorem tpAt_anti (yt : List Bool) (s : List ℚ) {t t' : ℚ} (h : t' ≤ t) :
    tpAt yt s t ≤ tpAt yt s t' := by
  refine List.Sublist.length_le (List.monotone_filter_right _ ?_)
  intro p hp
  simp only [Bool.and_eq_true, decide_eq_true_eq] at hp ⊢
  exact ⟨hp.1, le_trans h hp.2⟩

theorem zip_filter_fst (g : Bool → Bool) :
    ∀ (yt : List Bool) (s : List ℚ), yt.length ≤ s.length →
      (((yt.zip s).filter (fun p => g p.1)).length = (yt.filter g).length) := by
  intro yt
  induction yt with
  | nil => intro s _; simp
  | cons b bs ih =>
    intro s hl
    cases s with
    | nil => simp at hl
    | cons c cs =>
      simp only [List.zip_cons_cons, List.filter_cons, List.length_cons,
        Nat.succ_le_succ_iff] at hl ⊢
      cases hg : g b <;> simp [hg, ih cs hl]

theorem fpAt_le_negCount (yt : List Bool) (s : List ℚ) (t : ℚ)
    (hl : yt.length ≤ s.length) : fpAt yt s t ≤ negCount yt := by
  have h1 : fpAt yt s t ≤ ((yt.zip s).filter (fun p => !p.1)).length := by
    refine List.Sublist.length_le (List.monotone_filter_right _ ?_)
    intro p hp
    simp only [Bool.and_eq_true] at hp
    exact hp.1
  calc fpAt yt s t ≤ _ := h1
    _ = negCount yt := zip_filter_fst (fun b => !b) yt s hl

theorem tpAt_le_posCount (yt : List Bool) (s : List ℚ) (t : ℚ)
    (hl : yt.length ≤ s.length) : tpAt yt s t ≤ posCount yt := by
  have h1 : tpAt yt s t ≤ ((yt.zip s).filter (fun p => p.1)).length := by
    refine List.Sublist.length_le (List.monotone_filter_right _ ?_)
    intro p hp
    simp only [Bool.and_eq_true] at hp
    exact hp.1
  calc tpAt yt s t ≤ _ := h1
    _ = posCount yt := zip_filter_fst (fun b => b) yt s hl

theorem rocPoint_anti (yt : List Bool) (s : List ℚ) {t t' : ℚ} (h : t' ≤ t) :
    (rocPoint yt s t).1 ≤ (rocPoint yt s t').1 ∧ (rocPoint yt s t).2 ≤ (rocPoint yt s t').2 := by
  constructor
  · apply div_le_div_of_nonneg_right ?_ ?_
    · exact_mod_cast fpAt_anti yt s h
    · positivity
  · apply div_le_div_of_nonneg_right ?_ ?_
    · exact_mod_cast tpAt_anti yt s h
    · positivity

theorem rocPoint_nonneg (yt : List Bool) (s : List ℚ) (t : ℚ) :
    0 ≤ (rocPoint yt s t).1 ∧ 0 ≤ (rocPoint yt s t).2 :=
  ⟨div_nonneg (Nat.cast_nonneg _) (Nat.cast_nonneg _),
   div_nonneg (Nat.cast_nonneg _) (Nat.cast_nonneg _)⟩

theorem rocPoint_le_one (yt : List Bool) (s : List ℚ) (t : ℚ)
    (hl : yt.length ≤ s.length) (hp : 0 < posCount yt) (hn : 0 < negCount yt) :
    (rocPoint yt s t).1 ≤ 1 ∧ (rocPoint yt s t).2 ≤ 1 := by
  constructor
  · rw [rocPoint, div_le_one (by exact_mod_cast hn)]
    exact_mod_cast fpAt_le_negCount yt s t hl
  · rw [rocPoint, div_le_one (by exact_mod_cast hp)]
    exact_mod_cast tpAt_le_posCount yt s t hl

theorem rocPoints_pairwise (yt : List Bool) (s : List ℚ)
    (hl : yt.length = s.length) (hp : 0 < posCount yt) (hn : 0 < negCount yt) :
    (rocPoints yt s).Pairwise (fun p q : ℚ × ℚ => p.1 ≤ q.1 ∧ p.2 ≤ q.2) := by
  rw [rocPoints, List.cons_append]
  refine List.Pairwise.cons ?_ ?_
  · intro q hq
    rcases List.mem_append.mp hq with hq | hq
    · obtain ⟨t, _, rfl⟩ := List.mem_map.mp hq
      exact rocPoint_nonneg yt s t
    · simp only [List.mem_singleton] at hq
      subst hq
      exact ⟨zero_le_one, zero_le_one⟩
  · rw [List.pairwise_append]
    refine ⟨?_, List.pairwise_singleton _ _, ?_⟩
    · rw [List.pairwise_map]
      exact (pairwise_sortedDistinctDesc s).imp fun hgt => rocPoint_anti yt s (le_of_lt hgt)
    · intro p hpm q hq
      simp only [List.mem_singleton] at hq
      subst hq
      obtain ⟨t, _, rfl⟩ := List.mem_map.mp hpm
      exact rocPoint_le_one yt s t (le_of_eq hl) hp hn

theorem rocPoints_head (yt : List Bool) (s : List ℚ) :
    (rocPoints yt s).head? = some (0, 0) := rfl

theorem rocPoints_getLast (yt : List Bool) (s : List ℚ) :
    (rocPoints yt s).getLast? = some (1, 1) :=
  List.getLast?_concat _

theorem auc_cons_cons (p q : ℚ × ℚ) (rest : List (ℚ × ℚ)) :
    auc (p :: q :: rest) = (q.1 - p.1) * (p.2 + q.2) / 2 + auc (q :: rest) := by
  simp [auc]

theorem auc_bounds :
    ∀ (c : List (ℚ × ℚ)), List.Chain' (fun p q : ℚ × ℚ => p.1 ≤ q.1) c →
      (∀ p ∈ c, 0 ≤ p.2 ∧ p.2 ≤ 1) →
      ∀ p0 pk, c.head? = some p0 → c.getLast? = some pk →
      0 ≤ auc c ∧ auc c ≤ pk.1 - p0.1 := by
  intro c
  induction c with
  | nil => intro _ _ p0 pk hh _; simp at hh
  | cons p rest ih =>
    intro hch hb p0 pk hh hlast
    rw [List.head?_cons, Option.some_inj] at hh
    subst hh
    cases rest with
    | nil =>
      rw [List.getLast?_singleton, Option.some_inj] at hlast
      subst hlast
      exact ⟨le_refl 0, by simp [auc]⟩
    | cons q rest =>
      rw [List.chain'_cons] at hch
      rw [List.getLast?_cons_cons] at hlast
      have hbq : 0 ≤ q.2 ∧ q.2 ≤ 1 := hb q (by simp)
      have hbp : 0 ≤ p.2 ∧ p.2 ≤ 1 := hb p (by simp)
      have ihq := ih hch.2 (fun x hx => hb x (List.mem_cons_of_mem p hx)) q pk rfl hlast
      rw [auc_cons_cons]
      constructor
      · have hterm : 0 ≤ (q.1 - p.1) * (p.2 + q.2) / 2 := by
          apply div_nonneg _ (by norm_num)
          exact mul_nonneg (by linarith [hch.1]) (by linarith [hbp.1, hbq.1])
        linarith [ihq.1]
      · have hterm : (q.1 - p.1) * (p.2 + q.2) / 2 ≤ q.1 - p.1 := by
          nlinarith [hch.1, hbp.1, hbp.2, hbq.1, hbq.2]
        linarith [ihq.2]

theorem insertDesc_map {f : ℚ → ℚ} (hf : StrictMono f) (x : ℚ) :
    ∀ l : List ℚ, insertDesc (f x) (l.map f) = (insertDesc x l).map f := by
  intro l
  induction l with
  | nil => simp [insertDesc]
  | cons z zs ih =>
    simp only [List.map_cons, insertDesc]
    by_cases h1 : z < x
    · rw [if_pos (hf h1), if_pos h1, List.map_cons, List.map_cons]
    · rw [if_neg (fun hc => h1 (hf.lt_iff_lt.mp hc)), if_neg h1]
      by_cases h2 : x = z
      · rw [if_pos (congrArg f h2), if_pos h2, List.map_cons]
      · rw [if_neg (fun hc => h2 (hf.injective hc)), if_neg h2, List.map_cons, ih]

theorem sortedDistinctDesc_map {f : ℚ → ℚ} (hf : StrictMono f) (s : List ℚ) :
    sortedDistinctDesc (s.map f) = (sortedDistinctDesc s).map f := by
  induction s with
  | nil => rfl
  | cons a s ih =>
    show insertDesc (f a) (sortedDistinctDesc (s.map f)) = _
    rw [ih, insertDesc_map hf]
    rfl

theorem fpAt_map {f : ℚ → ℚ} (hf : StrictMono f) (yt : List Bool) (s : List ℚ) (t : ℚ) :
    fpAt yt (s.map f) (f t) = fpAt yt s t := by
  unfold fpAt
  rw [List.zip_map_right, List.filter_map, List.length_map]
  have hpred : ((fun p : Bool × ℚ => !p.1 && decide (f t ≤ p.2)) ∘ Prod.map id f)
      = (fun p : Bool × ℚ => !p.1 && decide (t ≤ p.2)) := by
    funext p
    simp [Prod.map, hf.le_iff_le]
  rw [hpred]

theorem tpAt_map {f : ℚ → ℚ} (hf : StrictMono f) (yt : List Bool) (s : List ℚ) (t : ℚ) :
    tpAt yt (s.map f) (f t) = tpAt yt s t := by
  unfold tpAt
  rw [List.zip_map_right, List.filter_map, List.length_map]
  have hpred : ((fun p : Bool × ℚ => p.1 && decide (f t ≤ p.2)) ∘ Prod.map id f)
      = (fun p : Bool × ℚ => p.1 && decide (t ≤ p.2)) := by
    funext p
    simp [Prod.map, hf.le_iff_le]
  rw [hpred]

theorem rocPoint_map {f : ℚ → ℚ} (hf : StrictMono f) (yt : List Bool) (s : List ℚ) (t : ℚ) :
    rocPoint yt (s.map f) (f t) = rocPoint yt s t := by
  unfold rocPoint
  rw [fpAt_map hf, tpAt_map hf]

theorem rocPoints_map {f : ℚ → ℚ} (hf : StrictMono f) (yt : List Bool) (s : List ℚ) :
    rocPoints yt (s.map f) = rocPoints yt s := by
  unfold rocPoints
  rw [sortedDistinctDesc_map hf, List.map_map]
  have : rocPoint yt (s.map f) ∘ f = rocPoint yt s := by
    funext t
    exact rocPoint_map hf yt s t
  rw [this]

theorem roc_curve_map {f : ℚ → ℚ} (hf : StrictMono f) (yt : List Bool) (s : List ℚ) :
    roc_curve yt (s.map f) = roc_curve yt s := by
  unfold roc_curve
  rw [List.length_map, rocPoints_map hf]

theorem fpCount_self (yt : List Bool) : fpCount yt yt = 0 := by
  induction yt with
  | nil => rfl
  | cons b bs ih =>
    have hstep : fpCount (b :: bs) (b :: bs) = fpCount bs bs := by
      unfold fpCount
      show (((b, b) :: bs.zip bs).filter _).length = _
      rw [List.filter_cons]
      cases b <;> simp
    rw [hstep, ih]

theorem fnCount_self (yt : List Bool) : fnCount yt yt = 0 := by
  induction yt with
  | nil => rfl
  | cons b bs ih =>
    have hstep : fnCount (b :: bs) (b :: bs) = fnCount bs bs := by
      unfold fnCount
      show (((b, b) :: bs.zip bs).filter _).length = _
      rw [List.filter_cons]
      cases b <;> simp
    rw [hstep, ih]

theorem accuracy_score_eq (yt yp : List Bool) (h : yt.length = yp.length)
    (hn : yt.length ≠ 0) :
    accuracy_score yt yp
      = Except.ok ((tpCount yt yp + tnCount yt yp : ℚ) / yt.length) := by
  unfold accuracy_score
  rw [if_neg (by simp [h]), if_neg hn]

theorem accuracy_ok_iff (yt yp : List Bool) :
    (∃ a, accuracy_score yt yp = Except.ok a) ↔ yt.length = yp.length ∧ yt.length ≠ 0 := by
  unfold accuracy_score
  split_ifs with h1 h2
  · constructor
    · rintro ⟨a, ha⟩
      exact absurd ha (by simp)
    · rintro ⟨hl, _⟩
      exact absurd hl h1
  · constructor
    · rintro ⟨a, ha⟩
      exact absurd ha (by simp)
    · rintro ⟨_, hn⟩
      exact absurd h2 hn
  · exact ⟨fun _ => ⟨not_not.mp h1, h2⟩, fun _ => ⟨_, rfl⟩⟩

theorem confusion_ok_iff (yt yp : List Bool) :
    (∃ c, confusion_matrix yt yp = Except.ok c) ↔ yt.length = yp.length ∧ yt.length ≠ 0 := by
  unfold confusion_matrix
  split_ifs with h1 h2
  · constructor
    · rintro ⟨c, hc⟩
      exact absurd hc (by simp)
    · rintro ⟨hl, _⟩
      exact absurd hl h1
  · constructor
    · rintro ⟨c, hc⟩
      exact absurd hc (by simp)
    · rintro ⟨_, hn⟩
      exact absurd h2 hn
  · exact ⟨fun _ => ⟨not_not.mp h1, h2⟩, fun _ => ⟨_, rfl⟩⟩

theorem posCount_eq_zero_iff (yt : List Bool) :
    posCount yt = 0 ↔ ∀ b ∈ yt, b = false := by
  simp [posCount, List.length_eq_zero, List.filter_eq_nil_iff]

theorem negCount_eq_zero_iff (yt : List Bool) :
    negCount yt = 0 ↔ ∀ b ∈ yt, b = true := by
  simp [negCount, List.length_eq_zero, List.filter_eq_nil_iff]

theorem rocPoints_snd_bounds (yt : List Bool) (s : List ℚ)
    (hl : yt.length ≤ s.length) (hp : 0 < posCount yt) (hn : 0 < negCount yt) :
    ∀ p ∈ rocPoints yt s, 0 ≤ p.2 ∧ p.2 ≤ 1 := by
  intro p hpm
  rw [rocPoints, List.cons_append] at hpm
  rcases List.mem_cons.mp hpm with rfl | hpm
  · norm_num
  rcases List.mem_append.mp hpm with hpm | hpm
  · obtain ⟨t, _, rfl⟩ := List.mem_map.mp hpm
    exact ⟨(rocPoint_nonneg yt s t).2, (rocPoint_le_one yt s t hl hp hn).2⟩
  · simp only [List.mem_singleton] at hpm
    subst hpm
    norm_num

theorem auc_rocPoints_bounds (yt : List Bool) (s : List ℚ) (hl : yt.length = s.length)
    (hp : 0 < posCount yt) (hn : 0 < negCount yt) :
    0 ≤ auc (rocPoints yt s) ∧ auc (rocPoints yt s) ≤ 1 := by
  have hpw := rocPoints_pairwise yt s hl hp hn
  have hch : List.Chain' (fun p q : ℚ × ℚ => p.1 ≤ q.1) (rocPoints yt s) :=
    (hpw.imp fun h => h.1).chain'
  have hbd := rocPoints_snd_bounds yt s (le_of_eq hl) hp hn
  have hres := auc_bounds (rocPoints yt s) hch hbd (0, 0) (1, 1)
    (rocPoints_head yt s) (rocPoints_getLast yt s)
  constructor
  · exact hres.1
  · have := hres.2
    norm_num at this
    exact this

theorem roc_curve_ok (yt : List Bool) (s : List ℚ) (hl : yt.length = s.length)
    (hp : 0 < posCount yt) (hn : 0 < negCount yt) :
    roc_curve yt s = Except.ok (rocPoints yt s) := by
  unfold roc_curve
  rw [if_neg (by simp [hl]), if_neg (by omega), if_neg (by omega)]

/-- Claim C1: the Sepsis-3 rule evaluator produces a boolean prediction
vector with exactly one entry per cohort record, in the same record order as
the cohort table, where entry i is true iff qsofa[i] ≥ 2 and sofa[i] ≥ 2. -/
theorem C1_rule_evaluator (df : List Record) (i : ℕ) (h : i < df.length) :
    (yhat df).length = df.length ∧
    ((yhat df).getD i false = true ↔
      2 ≤ (df.getD i default).qsofa ∧ 2 ≤ (df.getD i default).sofa) := by
  constructor
  · simp [yhat]
  · have hg : df[i]? = some df[i] := List.getElem?_eq_getElem h
    rw [yhat, List.getD_eq_getElem?_getD, List.getD_eq_getElem?_getD,
      List.getElem?_map, hg]
    simp

/-- Witness for C1 at the sample cohort and index 0. -/
theorem C1_rule_evaluator_witness :
    (yhat dfSample).length = dfSample.length ∧
    ((yhat dfSample).getD 0 false = true ↔
      2 ≤ (dfSample.getD 0 default).qsofa ∧ 2 ≤ (dfSample.getD 0 default).sofa) :=
  C1_rule_evaluator dfSample 0 (by decide)

/-- Claim C2: for equal-length boolean prediction/truth vectors the four
confusion counts satisfy tp + fp + fn + tn = n, and on predictions
[1,0,1,0] against truth [1,1,0,0] the confusion tuple is (1,1,1,1). -/
theorem C2_confusion_invariant (yt yp : List Bool) (h : yt.length = yp.length) :
    tpCount yt yp + fpCount yt yp + fnCount yt yp + tnCount yt yp = yt.length ∧
    confusion_matrix [true, true, false, false] [true, false, true, false]
      = Except.ok (1, 1, 1, 1) :=
  ⟨counts_sum yt yp h, rfl⟩

/-- Witness for C2 at a concrete equal-length pair. -/
theorem C2_confusion_invariant_witness :
    tpCount [true, false] [false, false] + fpCount [true, false] [false, false]
      + fnCount [true, false] [false, false] + tnCount [true, false] [false, false]
      = ([true, false] : List Bool).length ∧
    confusion_matrix [true, true, false, false] [true, false, true, false]
      = Except.ok (1, 1, 1, 1) :=
  C2_confusion_invariant [true, false] [false, false] rfl

/-- Claim C3: for equal-length non-empty boolean vectors, accuracy equals
(tp+tn)/n, lies in [0,1], and equals exactly 1 when the prediction vector
equals the truth vector. -/
theorem C3_accuracy (yt yp : List Bool) (h : yt.length = yp.length)
    (hn : yt.length ≠ 0) :
    accuracy_score yt yp
      = Except.ok ((tpCount yt yp + tnCount yt yp : ℚ) / yt.length) ∧
    0 ≤ ((tpCount yt yp + tnCount yt yp : ℚ) / yt.length) ∧
    ((tpCount yt yp + tnCount yt yp : ℚ) / yt.length) ≤ 1 ∧
    (yp = yt → accuracy_score yt yp = Except.ok 1) := by
  have hposn : (0 : ℚ) < yt.length := by
    exact_mod_cast Nat.pos_of_ne_zero hn
  refine ⟨accuracy_score_eq yt yp h hn, ?_, ?_, ?_⟩
  · positivity
  · rw [div_le_one hposn]
    have hle : tpCount yt yp + tnCount yt yp ≤ yt.length := by
      have := counts_sum yt yp h
      omega
    exact_mod_cast hle
  · intro heq
    subst heq
    have hsum : tpCount yp yp + tnCount yp yp = yp.length := by
      have := counts_sum yp yp rfl
      have h2 := fpCount_self yp
      have h3 := fnCount_self yp
      omega
    rw [accuracy_score_eq yp yp rfl hn]
    congr 1
    rw [show ((tpCount yp yp : ℚ) + tnCount yp yp)
        = ((tpCount yp yp + tnCount yp yp : ℕ) : ℚ) by push_cast; ring,
      hsum, div_self (ne_of_gt hposn)]

/-- Witness for C3 at a concrete equal-length non-empty pair. -/
theorem C3_accuracy_witness :
    accuracy_score [true] [true]
      = Except.ok ((tpCount [true] [true] + tnCount [true] [true] : ℚ)
          / ([true] : List Bool).length) ∧
    0 ≤ ((tpCount [true] [true] + tnCount [true] [true] : ℚ)
          / ([true] : List Bool).length) ∧
    ((tpCount [true] [true] + tnCount [true] [true] : ℚ)
          / ([true] : List Bool).length) ≤ 1 ∧
    (([true] : List Bool) = [true] → accuracy_score [true] [true] = Except.ok 1) :=
  C3_accuracy [true] [true] rfl (by decide)

/-- Claim C4: for a truth vector with at least one positive and one negative
example and a score vector of the same length, `roc_curve` returns an ordered
point sequence that is non-decreasing in both coordinates, starting at (0,0)
and ending at (1,1). -/
theorem C4_roc_shape (yt : List Bool) (s : List ℚ) (hl : yt.length = s.length)
    (hp : 0 < posCount yt) (hn : 0 < negCount yt) :
    roc_curve yt s = Except.ok (rocPoints yt s) ∧
    (rocPoints yt s).head? = some (0, 0) ∧
    (rocPoints yt s).getLast? = some (1, 1) ∧
    List.Chain' (fun p q : ℚ × ℚ => p.1 ≤ q.1 ∧ p.2 ≤ q.2) (rocPoints yt s) :=
  ⟨roc_curve_ok yt s hl hp hn, rocPoints_head yt s, rocPoints_getLast yt s,
    (rocPoints_pairwise yt s hl hp hn).chain'⟩

/-- Witness for C4 at a concrete two-class input. -/
theorem C4_roc_shape_witness :
    roc_curve [true, false] [2, 1] = Except.ok (rocPoints [true, false] [2, 1]) ∧
    (rocPoints [true, false] [2, 1]).head? = some (0, 0) ∧
    (rocPoints [true, false] [2, 1]).getLast? = some (1, 1) ∧
    List.Chain' (fun p q : ℚ × ℚ => p.1 ≤ q.1 ∧ p.2 ≤ q.2)
      (rocPoints [true, false] [2, 1]) :=
  C4_roc_shape [true, false] [2, 1] rfl (by decide) (by decide)

/-- Claim C5: `auc` is the sum of trapezoid areas between consecutive curve
points; on a curve produced by `roc_curve` it lies in [0,1], and for the
perfectly discriminating example y = [1,1,0,0], scores = [4,3,2,1] it is 1. -/
theorem C5_auc (yt : List Bool) (s : List ℚ) (hl : yt.length = s.length)
    (hp : 0 < posCount yt) (hn : 0 < negCount yt) :
    rocAuc yt s = Except.ok (auc (rocPoints yt s)) ∧
    auc (rocPoints yt s)
      = (((rocPoints yt s).zip (rocPoints yt s).tail).map
          (fun pq => (pq.2.1 - pq.1.1) * (pq.1.2 + pq.2.2) / 2)).sum ∧
    0 ≤ auc (rocPoints yt s) ∧ auc (rocPoints yt s) ≤ 1 ∧
    auc (rocPoints [true, true, false, false] [4, 3, 2, 1]) = 1 := by
  have hb := auc_rocPoints_bounds yt s hl hp hn
  refine ⟨?_, rfl, hb.1, hb.2, ?_⟩
  · rw [rocAuc, roc_curve_ok yt s hl hp hn]
    rfl
  · norm_num [auc, rocPoints, rocPoint, sortedDistinctDesc, insertDesc, tpAt,
      fpAt, posCount, negCount, List.zip, List.zipWith, List.filter]

/-- Witness for C5 at a concrete two-class input. -/
theorem C5_auc_witness :
    rocAuc [true, false] [2, 1] = Except.ok (auc (rocPoints [true, false] [2, 1])) ∧
    auc (rocPoints [true, false] [2, 1])
      = (((rocPoints [true, false] [2, 1]).zip (rocPoints [true, false] [2, 1]).tail).map
          (fun pq => (pq.2.1 - pq.1.1) * (pq.1.2 + pq.2.2) / 2)).sum ∧
    0 ≤ auc (rocPoints [true, false] [2, 1]) ∧ auc (rocPoints [true, false] [2, 1]) ≤ 1 ∧
    auc (rocPoints [true, true, false, false] [4, 3, 2, 1]) = 1 :=
  C5_auc [true, false] [2, 1] rfl (by decide) (by decide)

/-- Claim C6: equal score values are grouped into a single threshold step
(the threshold list has no duplicates yet covers every score value, and the
curve has exactly one point per distinct score plus the two endpoints), and
for y = [1,0,1,0] with all scores tied the AUC is 1/2. -/
theorem C6_ties (s : List ℚ) (yt : List Bool) :
    (sortedDistinctDesc s).Nodup ∧
    (∀ x : ℚ, x ∈ sortedDistinctDesc s ↔ x ∈ s) ∧
    (rocPoints yt s).length = (sortedDistinctDesc s).length + 2 ∧
    auc (rocPoints [true, false, true, false] [1, 1, 1, 1]) = 1 / 2 := by
  refine ⟨nodup_sortedDistinctDesc s, fun x => mem_sortedDistinctDesc x s, ?_, ?_⟩
  · simp [rocPoints]
  · norm_num [auc, rocPoints, rocPoint, sortedDistinctDesc, insertDesc, tpAt,
      fpAt, posCount, negCount, List.zip, List.zipWith, List.filter]

/-- Claim C7: the AUC is invariant under any strictly monotone transform of
the scores. -/
theorem C7_auc_strictMono (f : ℚ → ℚ) (hf : StrictMono f) (yt : List Bool)
    (s : List ℚ) (hp : 0 < posCount yt) (hn : 0 < negCount yt) :
    rocAuc yt (s.map f) = rocAuc yt s := by
  rw [rocAuc, rocAuc, roc_curve_map hf]

/-- Witness for C7 with the strictly monotone shift x + 1. -/
theorem C7_auc_strictMono_witness :
    StrictMono (fun x : ℚ => x + 1) ∧ 0 < posCount [true, false] ∧
    0 < negCount [true, false] ∧
    rocAuc [true, false] ([1, 2].map (fun x : ℚ => x + 1)) = rocAuc [true, false] [1, 2] :=
  ⟨fun a b hab => by simpa using hab, by decide, by decide,
    C7_auc_strictMono (fun x : ℚ => x + 1) (fun a b hab => by simpa using hab)
      [true, false] [1, 2] (by decide) (by decide)⟩

/-- Claim C8: `roc_curve` and the AUC computed through it signal an explicit
error whenever the truth vector is single-class (all-zero or all-one). -/
theorem C8_single_class (yt : List Bool) (s : List ℚ) (hl : yt.length = s.length)
    (hdeg : (∀ b ∈ yt, b = false) ∨ (∀ b ∈ yt, b = true)) :
    (∃ msg, roc_curve yt s = Except.error msg) ∧
    (∃ msg, rocAuc yt s = Except.error msg) := by
  have hcases : posCount yt = 0 ∨ negCount yt = 0 := by
    rcases hdeg with h | h
    · exact Or.inl ((posCount_eq_zero_iff yt).mpr h)
    · exact Or.inr ((negCount_eq_zero_iff yt).mpr h)
  have hroc : ∃ msg, roc_curve yt s = Except.error msg := by
    unfold roc_curve
    rw [if_neg (by simp [hl])]
    by_cases h0 : posCount yt = 0
    · rw [if_pos h0]
      exact ⟨_, rfl⟩
    · rcases hcases with h | h
      · exact absurd h h0
      · rw [if_neg h0, if_pos h]
        exact ⟨_, rfl⟩
  obtain ⟨msg, hmsg⟩ := hroc
  exact ⟨⟨msg, hmsg⟩, ⟨msg, by rw [rocAuc, hmsg]; rfl⟩⟩

/-- Witness for C8 on an all-negative truth vector. -/
theorem C8_single_class_witness :
    (∃ msg, roc_curve [false, false] [1, 2] = Except.error msg) ∧
    (∃ msg, rocAuc [false, false] [1, 2] = Except.error msg) :=
  C8_single_class [false, false] [1, 2] rfl (Or.inl (by decide))

/-- Claim C9: the joint metric operations produce a result exactly for
equal-length non-empty inputs, and fail with an explicit error otherwise
(length mismatch or empty vectors). -/
theorem C9_joint_guard (yt yp : List Bool) :
    ((∃ a, accuracy_score yt yp = Except.ok a) ↔ yt.length = yp.length ∧ yt ≠ []) ∧
    ((∃ c, confusion_matrix yt yp = Except.ok c) ↔ yt.length = yp.length ∧ yt ≠ []) := by
  constructor
  · rw [accuracy_ok_iff]
    simp [ne_eq, List.length_eq_zero]
  · rw [confusion_ok_iff]
    simp [ne_eq, List.length_eq_zero]

/-- Claim C10: every joint metric invocation in the notebook satisfies the
equal-length precondition by construction: `y`, `yhat` and every member of
`yhat_all` are elementwise images of the one cohort table, so they all have
the cohort's length and the dimension-mismatch branch of accuracy, confusion
matrix, ROC and `print_op_stats` is unreachable. -/
theorem C10_lengths_by_construction (df : List Record) (hne : df ≠ []) :
    (y df).length = df.length ∧
    (yhat df).length = df.length ∧
    (∀ p ∈ yhat_all df, p.length = (y df).length) ∧
    (∃ a, accuracy_score (y df) (yhat df) = Except.ok a) ∧
    (∃ c, confusion_matrix (y df) (yhat df) = Except.ok c) ∧
    (∀ e ∈ print_op_stats (yhat_all df) (y_all df), ∃ c, e = Except.ok c) ∧
    roc_curve (y df) (qsofaScores df) ≠ Except.error "size mismatch" ∧
    roc_curve (y df) (sofaScores df) ≠ Except.error "size mismatch" ∧
    roc_curve (y df) (sirsScores df) ≠ Except.error "size mismatch" ∧
    roc_curve (y df) (lodsScores df) ≠ Except.error "size mismatch" := by
  have hy : (y df).length = df.length := by simp [y]
  have hlen0 : (y df).length ≠ 0 := by
    rw [hy]
    exact fun h0 => hne (List.length_eq_zero.mp h0)
  have hok : ∀ g : Record → Bool,
      ∃ c, confusion_matrix (y df) (df.map g) = Except.ok c :=
    fun g => (confusion_ok_iff _ _).mpr ⟨by simp [hy], hlen0⟩
  have hroc : ∀ sc : Record → ℚ,
      roc_curve (y df) (df.map sc) ≠ Except.error "size mismatch" := by
    intro sc
    unfold roc_curve
    rw [if_neg (by simp [hy])]
    split_ifs <;> simp
  refine ⟨hy, by simp [yhat], ?_, ?_, ?_, ?_, hroc _, hroc _, hroc _, hroc _⟩
  · intro p hp
    simp only [yhat_all, List.mem_cons, List.not_mem_nil, or_false] at hp
    rcases hp with rfl | rfl | rfl | rfl | rfl
    · simp [hy]
    · simp [hy]
    · simp [hy]
    · simp [hy]
    · simp [hy]
  · exact (accuracy_ok_iff _ _).mpr ⟨by simp [hy, yhat], hlen0⟩
  · exact (confusion_ok_iff _ _).mpr ⟨by simp [hy, yhat], hlen0⟩
  · intro e he
    simp only [print_op_stats, y_all, yhat_all, List.zip, List.zipWith, List.map,
      List.mem_cons, List.not_mem_nil, or_false] at he
    rcases he with rfl | rfl | rfl | rfl | rfl
    · exact hok _
    · exact hok _
    · exact hok _
    · exact hok _
    · exact hok _

/-- Witness for C10 at the sample cohort. -/
theorem C10_lengths_by_construction_witness :
    (y dfSample).length = dfSample.length ∧
    (yhat dfSample).length = dfSample.length ∧
    (∀ p ∈ yhat_all dfSample, p.length = (y dfSample).length) ∧
    (∃ a, accuracy_score (y dfSample) (yhat dfSample) = Except.ok a) ∧
    (∃ c, confusion_matrix (y dfSample) (yhat dfSample) = Except.ok c) ∧
    (∀ e ∈ print_op_stats (yhat_all dfSample) (y_all dfSample), ∃ c, e = Except.ok c) ∧
    roc_curve (y dfSample) (qsofaScores dfSample) ≠ Except.error "size mismatch" ∧
    roc_curve (y dfSample) (sofaScores dfSample) ≠ Except.error "size mismatch" ∧
    roc_curve (y dfSample) (sirsScores dfSample) ≠ Except.error "size mismatch" ∧
    roc_curve (y dfSample) (lodsScores dfSample) ≠ Except.error "size mismatch" :=
  C10_lengths_by_construction dfSample (by simp [dfSample])

end Sepsis3
